import Mathlib

/-!
Verification of the football-analysis tracking pipeline.

Shallow embedding of the core pipeline of the repository:
`referee_filter/referee_filter.py` (IoU, color matching, two-stage referee
removal) and `trackers/tracker.py` (batched detection, goalkeeper remap,
players/referees/ball partition, ball interpolation).

Python floats are modelled as rationals (ℚ), Python dicts as
insertion-ordered association lists, Python sets of ints as `Finset ℕ`,
video frames as rectangular pixel grids `List (List Color)`.
-/

namespace RefereeFilter

/-- Axis-aligned bounding box `[x1, y1, x2, y2]`, as unpacked by
`RefereeFilter.calculate_iou` (referee_filter.py lines 50-51). -/
structure Bbox where
  x1 : ℚ
  y1 : ℚ
  x2 : ℚ
  y2 : ℚ
deriving DecidableEq

/-- `area1`/`area2` of referee_filter.py lines 66-67: `(x2 - x1) * (y2 - y1)`. -/
def area (b : Bbox) : ℚ := (b.x2 - b.x1) * (b.y2 - b.y1)

/-- `intersection` of referee_filter.py line 63:
`(x2_i - x1_i) * (y2_i - y1_i)` with `x1_i = max(x1_1, x1_2)`,
`y1_i = max(y1_1, y1_2)`, `x2_i = min(x2_1, x2_2)`, `y2_i = min(y2_1, y2_2)`
(lines 54-57). -/
def inter (a b : Bbox) : ℚ :=
  (min a.x2 b.x2 - max a.x1 b.x1) * (min a.y2 b.y2 - max a.y1 b.y1)

/-- `union` of referee_filter.py line 68: `area1 + area2 - intersection`. -/
def unionArea (a b : Bbox) : ℚ := area a + area b - inter a b

/-- `RefereeFilter.calculate_iou` (referee_filter.py lines 39-72).
Returns 0 when the guard `x2_i <= x1_i or y2_i <= y1_i` fires (line 60),
0 when `union == 0` (line 70), else `intersection / union` (line 72). -/
def calculate_iou (a b : Bbox) : ℚ :=
  if min a.x2 b.x2 ≤ max a.x1 b.x1 ∨ min a.y2 b.y2 ≤ max a.y1 b.y1 then 0
  else if unionArea a b = 0 then 0
  else inter a b / unionArea a b

/-- Well-formedness invariant of a bbox (spec section 3: `x1<x2`, `y1<y2`). -/
def Bbox.wf (b : Bbox) : Prop := b.x1 < b.x2 ∧ b.y1 < b.y2

/-- An RGB color triple (Python tuple / numpy mean color). -/
structure Color where
  r : ℚ
  g : ℚ
  b : ℚ
deriving DecidableEq

/-- `self.referee_colors` (referee_filter.py lines 31-37):
black, yellow, red, blue, orange. -/
def referee_colors : List Color :=
  [⟨0, 0, 0⟩, ⟨255, 255, 0⟩, ⟨255, 0, 0⟩, ⟨0, 0, 255⟩, ⟨255, 140, 0⟩]

/-- Squared Euclidean RGB distance (referee_filter.py lines 93-97 compute
`sqrt` of this sum). -/
def dist2 (c d : Color) : ℚ := (c.r - d.r) ^ 2 + (c.g - d.g) ^ 2 + (c.b - d.b) ^ 2

/-- `RefereeFilter.is_referee_color` (referee_filter.py lines 74-102):
true iff some palette entry is at Euclidean distance strictly below
`color_tolerance`.  The source compares `sqrt(dist2) < tolerance`; over ℚ
this is expressed equivalently (for the square root is nonnegative) as
`0 < tolerance ∧ dist2 < tolerance²`.  The `isinstance`/length-3 guards of
lines 84-90 are enforced by the `Color` type. -/
def is_referee_color (tol : ℚ) (c : Color) : Bool :=
  referee_colors.any (fun rc => decide (0 < tol ∧ dist2 c rc < tol ^ 2))

/-- Entity record stored in a per-frame track dict (spec section 3):
`bbox` and `team_colour` are the keys read by the referee filter; a missing
dict key is `none` (`"bbox" not in player`, `player.get("team_colour")`). -/
structure Entity where
  bbox : Option Bbox
  team_colour : Option Color
deriving DecidableEq

/-- A per-frame track dict `{tracker_id: record}`, as an insertion-ordered
association list. -/
abbrev TrackDict := List (ℕ × Entity)

/-- The track store as read by the referee filter: the `"players"` and
`"referees"` collections (both structurally present, which models the
`"referees" not in tracks or "players" not in tracks` guard of line 113
never firing for stores produced by the tracker). -/
structure Tracks where
  players : List TrackDict
  referees : List TrackDict
deriving DecidableEq

/-- Inner loop of `filter_by_referee_tracks` over the referees of one frame
(referee_filter.py lines 131-144): skip records without `"bbox"`, and add
`player_id` to the accumulated set when `iou > self.iou_threshold`. -/
def refStep (thr : ℚ) (pid : ℕ) (pb : Bbox) (acc : Finset ℕ) (rp : ℕ × Entity) :
    Finset ℕ :=
  match rp.2.bbox with
  | none => acc
  | some rb => if thr < calculate_iou pb rb then insert pid acc else acc

/-- Middle loop of `filter_by_referee_tracks` over the players of one frame
(referee_filter.py lines 124-144): skip players without `"bbox"`, else run
the referee loop. -/
def playerStep (thr : ℚ) (frs : TrackDict) (acc : Finset ℕ) (pp : ℕ × Entity) :
    Finset ℕ :=
  match pp.2.bbox with
  | none => acc
  | some pb => frs.foldl (refStep thr pp.1 pb) acc

/-- Frame loop body of `filter_by_referee_tracks` (lines 117-144):
`frame_referees` is `{}` when `frame_num` is beyond the referees list
(line 119), modelled by `getD n []`. -/
def frameStep (thr : ℚ) (tracks : Tracks) (acc : Finset ℕ) (n : ℕ) : Finset ℕ :=
  (tracks.players.getD n []).foldl
    (playerStep thr (tracks.referees.getD n [])) acc

/-- `RefereeFilter.filter_by_referee_tracks` (referee_filter.py lines
104-147): the set of player tracker ids overlapping a referee bbox with
IoU above the threshold in some frame. -/
def filter_by_referee_tracks (thr : ℚ) (tracks : Tracks) : Finset ℕ :=
  (List.range tracks.players.length).foldl (frameStep thr tracks) ∅

/-- A video frame as a rectangular grid of pixels (numpy array of shape
`(height, width, 3)`). -/
abbrev Frame := List (List Color)

/-- `frame.shape[0]`. -/
def fHeight (f : Frame) : ℕ := f.length

/-- `frame.shape[1]` (frames are rectangular numpy arrays, so the width is
the length of the first row). -/
def fWidth (f : Frame) : ℕ := (f.headD []).length

/-- Python `int(...)`: truncation toward zero. -/
def pyInt (q : ℚ) : ℤ := q.num.tdiv q.den

/-- Componentwise mean of a pixel list: models
`np.mean(shirt_area.reshape(-1, 3), axis=0)` (referee_filter.py line 204);
only ever applied to nonempty lists thanks to the `size > 0` guard. -/
def meanColor (ps : List Color) : Color :=
  ⟨(ps.map Color.r).sum / ps.length, (ps.map Color.g).sum / ps.length,
    (ps.map Color.b).sum / ps.length⟩

/-- Shirt color extraction of `filter_by_color_analysis`
(referee_filter.py lines 192-207): clamp the integer-truncated bbox to the
frame shape, take the top half of the box (`frame[y1:int(y1+(y2-y1)*0.5),
x1:x2]`), and return its mean color when the region is nonempty, `none`
otherwise (the guards of lines 199/202 and the `except: continue` of
lines 208-209). -/
def mean_shirt_color (f : Frame) (bb : Bbox) : Option Color :=
  let x1 := max 0 (min (pyInt bb.x1) (fWidth f : ℤ))
  let y1 := max 0 (min (pyInt bb.y1) (fHeight f : ℤ))
  let x2 := max 0 (min (pyInt bb.x2) (fWidth f : ℤ))
  let y2 := max 0 (min (pyInt bb.y2) (fHeight f : ℤ))
  if x1 < x2 ∧ y1 < y2 then
    let yEnd := pyInt ((y1 : ℚ) + ((y2 : ℚ) - (y1 : ℚ)) * (0.5 : ℚ))
    let rows := (f.drop y1.toNat).take (yEnd.toNat - y1.toNat)
    let pixels := rows.flatMap (fun row => (row.drop x1.toNat).take (x2.toNat - x1.toNat))
    if pixels.length ≠ 0 then some (meanColor pixels) else none
  else none

/-- Mutable state of the first pass of `filter_by_color_analysis`:
`filtered_ids` (line 176) and `player_colors` (line 168), the latter an
insertion-ordered dict `player_id -> list of appended colors`. -/
structure ColorState where
  filtered_ids : Finset ℕ
  player_colors : List (ℕ × List Color)
deriving DecidableEq

/-- `player_colors[player_id].append(mean_color)` together with the
preceding `if player_id not in player_colors: player_colors[player_id] = []`
(referee_filter.py lines 205-207). -/
def pushColor (pid : ℕ) (c : Color) (pcs : List (ℕ × List Color)) :
    List (ℕ × List Color) :=
  if pcs.any (fun pc => pc.1 == pid) then
    pcs.map (fun pc => if pc.1 = pid then (pc.1, pc.2 ++ [c]) else pc)
  else pcs ++ [(pid, [c])]

/-- Per-player body of the first pass of `filter_by_color_analysis`
(referee_filter.py lines 179-209), in source order: skip ids outside
`player_ids_to_check` when that set is given; skip records without
`"bbox"`; if `team_colour` is present and referee-colored, flag and
`continue`; otherwise sample the shirt color and, only when it is
referee-colored, flag the id and append the color to `player_colors`. -/
def colorStep (tol : ℚ) (toCheck : Option (Finset ℕ)) (frame : Frame)
    (st : ColorState) (pp : ℕ × Entity) : ColorState :=
  if toCheck.elim false (fun s => decide (pp.1 ∉ s)) then st
  else
    match pp.2.bbox with
    | none => st
    | some bb =>
      if pp.2.team_colour.elim false (fun tc => is_referee_color tol tc) then
        { st with filtered_ids := insert pp.1 st.filtered_ids }
      else
        match mean_shirt_color frame bb with
        | none => st
        | some m =>
          if is_referee_color tol m then
            ⟨insert pp.1 st.filtered_ids, pushColor pp.1 m st.player_colors⟩
          else st

/-- The whole first pass of `filter_by_color_analysis` (referee_filter.py
lines 170-209): `for frame_num, frame_players in enumerate(players)` with
`if frame_num >= len(frames): break` processes exactly the zip of the
player frames with the video frames. -/
def colorFramesPass (tol : ℚ) (toCheck : Option (Finset ℕ)) (frames : List Frame)
    (players : List TrackDict) : ColorState :=
  (players.zip frames).foldl
    (fun st pf => pf.1.foldl (colorStep tol toCheck pf.2) st) ⟨∅, []⟩

/-- Body of the final frequency loop of `filter_by_color_analysis`
(referee_filter.py lines 211-216): flag an id whose stored color list has
at least 3 entries of which a fraction strictly above 0.6 is
referee-colored. -/
def freqStep (tol : ℚ) (acc : Finset ℕ) (pc : ℕ × List Color) : Finset ℕ :=
  if 3 ≤ pc.2.length ∧
      (0.6 : ℚ) < ((pc.2.countP (fun c => is_referee_color tol c) : ℚ) / (pc.2.length : ℚ)) then
    insert pc.1 acc
  else acc

/-- `RefereeFilter.filter_by_color_analysis` (referee_filter.py lines
149-218): the first pass followed by the frequency loop, which inserts into
the same `filtered_ids` set. -/
def filter_by_color_analysis (tol : ℚ) (frames : List Frame) (tracks : Tracks)
    (toCheck : Option (Finset ℕ)) : Finset ℕ :=
  let st := colorFramesPass tol toCheck frames tracks.players
  st.player_colors.foldl (freqStep tol) st.filtered_ids

/-- The ids contributed by the frequency loop alone (the inserts performed
by referee_filter.py lines 211-216, taken from an empty set instead of the
already-populated `filtered_ids`). -/
def freq_path_ids (tol : ℚ) (toCheck : Option (Finset ℕ)) (frames : List Frame)
    (players : List TrackDict) : Finset ℕ :=
  (colorFramesPass tol toCheck frames players).player_colors.foldl (freqStep tol) ∅

/-- Colors sampled from a single dict entry when the sampling code runs for
it: the same gates as `colorStep`, but recording the sampled mean color
whether or not it is referee-colored. -/
def sampleAt (tol : ℚ) (toCheck : Option (Finset ℕ)) (frame : Frame)
    (pp : ℕ × Entity) : List Color :=
  if toCheck.elim false (fun s => decide (pp.1 ∉ s)) then []
  else
    match pp.2.bbox with
    | none => []
    | some bb =>
      if pp.2.team_colour.elim false (fun tc => is_referee_color tol tc) then []
      else
        match mean_shirt_color frame bb with
        | none => []
        | some m => [m]

/-- Follows the spec's words (not the source): the list of shirt colors
sampled for tracker id `pid` across all frames — the spec's temporal
frequency rule counts "all frames where color was sampled for a given id",
referee-colored or not.  Compare with the source's `player_colors`
accumulated by `colorStep`, which appends only referee-colored samples. -/
def specSampledColors (tol : ℚ) (toCheck : Option (Finset ℕ)) (frames : List Frame)
    (players : List TrackDict) (pid : ℕ) : List Color :=
  (players.zip frames).flatMap
    (fun pf => (pf.1.filter (fun pp => pp.1 == pid)).flatMap (sampleAt tol toCheck pf.2))

/-- `RefereeFilter.filter_referees` (referee_filter.py lines 230-261):
Stage A (overlap), Stage B (color analysis restricted to the Stage A set),
union, then deletion of every flagged id from every player frame.  The
`if all_filtered_ids and "players" in tracks` guard of line 251 is kept. -/
def filter_referees (iouThr tol : ℚ) (frames : List Frame) (tracks : Tracks) :
    Tracks :=
  let filtered_by_overlap := filter_by_referee_tracks iouThr tracks
  let filtered_by_color := filter_by_color_analysis tol frames tracks (some filtered_by_overlap)
  let all_filtered_ids := filtered_by_overlap ∪ filtered_by_color
  if all_filtered_ids = ∅ then tracks
  else
    { tracks with
      players := tracks.players.map
        (fun fp => fp.filter (fun pp => decide (pp.1 ∉ all_filtered_ids))) }

/-- Concrete fixture: black (referee-colored) pixels. -/
def blackC : Color := ⟨0, 0, 0⟩

/-- Concrete fixture: green pixels, not within tolerance 40 of any palette
entry. -/
def greenC : Color := ⟨0, 255, 0⟩

/-- A 2x1 pixel frame of one color (two rows so that the top-half shirt
slice of a bbox spanning the frame is nonempty). -/
def monoFrame (c : Color) : Frame := [[c], [c]]

/-- Fixture: 10 frames, the first 3 black, the rest green. -/
def exFrames : List Frame :=
  List.replicate 3 (monoFrame blackC) ++ List.replicate 7 (monoFrame greenC)

/-- Fixture: player id 7 present in all 10 frames with bbox (0,0,1,2)
covering the whole 2x1 frame, no `team_colour`. -/
def exPlayers : List TrackDict :=
  List.replicate 10 [(7, ⟨some ⟨0, 0, 1, 2⟩, none⟩)]

/-- Fixture track store: the players above and no referees. -/
def exTracks : Tracks := ⟨exPlayers, List.replicate 10 []⟩

end RefereeFilter

namespace Tracker

/-- One raw detection of a frame, as iterated by tracker.py lines 238-240:
index 0 is the xyxy bbox, index 2 the confidence, index 3 the class id. -/
structure Det where
  bbox : RefereeFilter.Bbox
  conf : ℚ
  cls : ℕ
deriving DecidableEq

/-- One tracked detection (after `update_with_detections`), as iterated by
tracker.py lines 224-228: index 4 is the tracker id. -/
structure TrackedDet where
  bbox : RefereeFilter.Bbox
  conf : ℚ
  cls : ℕ
  tid : ℕ
deriving DecidableEq

/-- The per-frame result of the detection model: `detection.names`
(a dict class_id -> class_name) and the detections. -/
structure FrameResult where
  names : List (ℕ × String)
  dets : List Det
deriving DecidableEq

/-- `cls_names[class_id]` (tracker.py line 199): dict lookup in
`detection.names`. -/
def clsName (names : List (ℕ × String)) (c : ℕ) : Option String := names.lookup c

/-- `cls_names_switched[s]` for `cls_names_switched = {v: k for k, v in
cls_names.items()}` (tracker.py line 200): the swapped dict keeps the last
pair for a repeated name, hence the reversed search. -/
def switched (names : List (ℕ × String)) (s : String) : Option ℕ :=
  (names.reverse.find? (fun kv => kv.2 == s)).map (fun kv => kv.1)

/-- Goalkeeper-to-player class correction (tracker.py lines 207-209):
every detection whose class name is "goalkeeper" gets its class id
rewritten to `cls_names_switched["player"]` before tracking. -/
def remap_goalkeepers (names : List (ℕ × String)) (pid : ℕ) (dets : List Det) :
    List Det :=
  dets.map (fun d =>
    if clsName names d.cls == some "goalkeeper" then { d with cls := pid } else d)

/-- Record stored by the tracking loop: `{"bbox": bbox}` only
(tracker.py lines 232, 235, 243). -/
structure TrackEntity where
  bbox : RefereeFilter.Bbox
deriving DecidableEq

/-- A per-frame dict `{tracker_id: {"bbox": ...}}`. -/
abbrev TDict := List (ℕ × TrackEntity)

/-- Python dict assignment `d[k] = v`: replace in place if the key exists,
else append. -/
def dinsert (k : ℕ) (v : TrackEntity) (d : TDict) : TDict :=
  if d.any (fun kv => kv.1 == k) then
    d.map (fun kv => if kv.1 = k then (k, v) else kv)
  else d ++ [(k, v)]

/-- The per-class write of the tracking loop (tracker.py lines 231-235):
`tracks[...][frame_num][tracker_id] = {"bbox": bbox}` for every tracked
detection of class `cid`.  The source interleaves the player and referee
writes in one pass; as each write targets its own dict, one fold per class
builds the same dicts. -/
def partitionFold (cid : ℕ) (tds : List TrackedDet) : TDict :=
  tds.foldl (fun d td => if td.cls = cid then dinsert td.tid ⟨td.bbox⟩ d else d) []

/-- The ball loop (tracker.py lines 238-243): over the *untracked*
detections, every ball-class detection with confidence `>= 0.3` is written
under the fixed key 1. -/
def ballFold (bid : ℕ) (dets : List Det) : TDict :=
  dets.foldl
    (fun d sd =>
      if sd.cls = bid ∧ (0.3 : ℚ) ≤ sd.conf then dinsert 1 ⟨sd.bbox⟩ d else d) []

/-- One iteration of the frame loop of `get_object_tracks` (tracker.py
lines 198-243), parameterized by the external ByteTrack step
`tu` (`self.tracker.update_with_detections`).  `none` models the KeyError
on `cls_names_switched["player"/"referee"/"ball"]` when a class name is
absent from the model's names (never the case for the bundled model). -/
def processFrame (tu : List Det → List TrackedDet) (fr : FrameResult) :
    Option (TDict × TDict × TDict) :=
  match switched fr.names "player", switched fr.names "referee",
      switched fr.names "ball" with
  | some pid, some rid, some bid =>
    let ds := remap_goalkeepers fr.names pid fr.dets
    let tracked := tu ds
    some (partitionFold pid tracked, partitionFold rid tracked, ballFold bid ds)
  | _, _, _ => none

/-- The frame loop of `get_object_tracks`: appends one players dict, one
referees dict and one ball dict per frame result (tracker.py lines
220-222 initialize the three dicts for every frame). -/
def build_tracks (tu : List Det → List TrackedDet) :
    List FrameResult → Option (List TDict × List TDict × List TDict)
  | [] => some ([], [], [])
  | fr :: rest =>
    match processFrame tu fr, build_tracks tu rest with
    | some t, some ts => some (t.1 :: ts.1, t.2.1 :: ts.2.1, t.2.2 :: ts.2.2)
    | _, _ => none

/-- The track store built by `get_object_tracks` (tracker.py lines
187-191). -/
structure TrackStore where
  players : List TDict
  referees : List TDict
  ball : List TDict
deriving DecidableEq

/-- Fuel-indexed chunking; the fuel only bounds the recursion depth and
`chunksFuel_join` below shows the list length is always enough fuel. -/
def chunksFuel {α : Type _} (n : ℕ) : ℕ → List α → List (List α)
  | _, [] => []
  | 0, a :: l => [a :: l]
  | fuel + 1, a :: l => ((a :: l).take (n + 1)) :: chunksFuel n fuel (l.drop n)

/-- The batch slicing `frames[i:i+batch_size]` for
`i in range(0, len(frames), batch_size)` (tracker.py line 158): the list
split into chunks of size `n + 1`. -/
def chunks {α : Type _} (n : ℕ) (l : List α) : List (List α) :=
  chunksFuel n l.length l

/-- `Tracker.detect_frames` (tracker.py lines 136-181), parameterized by
the external model call `predict` (`self.model.predict`): the frames are
processed in batches of `batch_size` (which Python requires positive —
`range` rejects step 0) and the per-batch results are concatenated. -/
def detect_frames {α β : Type _} (predict : List α → List β) (batch_size : ℕ)
    (frames : List α) : List β :=
  (chunks (batch_size - 1) frames).flatMap predict

/-- `Tracker.get_object_tracks` (tracker.py lines 183-251), parameterized
by the external detector `predict` and ByteTrack step `tu`. -/
def get_object_tracks {α : Type _} (predict : List α → List FrameResult)
    (batch_size : ℕ) (tu : List Det → List TrackedDet) (frames : List α) :
    Option TrackStore :=
  (build_tracks tu (detect_frames predict batch_size frames)).map
    (fun t => ⟨t.1, t.2.1, t.2.2⟩)

/-- Ball-collection entry before interpolation: a `bbox` and the optional
`position` key added by `add_position_to_tracks` (tracker.py lines
253-265), which in the reference pipeline runs before interpolation. -/
structure BallEntry where
  bbox : Option RefereeFilter.Bbox
  position : Option (ℚ × ℚ)
deriving DecidableEq

/-- A per-frame ball dict. -/
abbrev BallDict := List (ℕ × BallEntry)

/-- `track.get(1, {}).get("bbox", [])` (tracker.py line 123): `none` when
the frame has no ball entry or the entry has no bbox. -/
def ballPositionOf (d : BallDict) : Option RefereeFilter.Bbox :=
  (d.lookup 1).bind (fun e => e.bbox)

/-- The value of a column series at row `j` (`NaN`, i.e. `none`, beyond the
end). -/
def entry (xs : List (Option ℚ)) (j : ℕ) : Option ℚ := xs.getD j none

/-- Greatest index `j ≤ i` holding a known value, if any. -/
def prevIdx (xs : List (Option ℚ)) (i : ℕ) : Option ℕ :=
  (List.range (i + 1)).reverse.find? (fun j => (entry xs j).isSome)

/-- Least index `k ≥ i` holding a known value, if any. -/
def nextIdx (xs : List (Option ℚ)) (i : ℕ) : Option ℕ :=
  ((List.range xs.length).drop i).find? (fun j => (entry xs j).isSome)

/-- `df.interpolate()` followed by `df.bfill()` (tracker.py lines 129-130)
on one column at one row, per the pandas semantics of linear interpolation
over the default range index: a known value stays; an interior `NaN` gets
the linear interpolation between the nearest preceding and following known
values; a `NaN` after the last known value is filled forward with it; a
leading `NaN` is back-filled by `bfill` with the first known value; an
all-`NaN` column stays `NaN`. -/
def interpAt (xs : List (Option ℚ)) (i : ℕ) : Option ℚ :=
  match entry xs i with
  | some v => some v
  | none =>
    match prevIdx xs i, nextIdx xs i with
    | some j, some k =>
      (entry xs j).bind (fun a => (entry xs k).map (fun b =>
        a + (b - a) * (((i : ℚ) - (j : ℚ)) / ((k : ℚ) - (j : ℚ)))))
    | some j, none => entry xs j
    | none, some k => entry xs k
    | none, none => none

/-- Interpolated ball record `{"bbox": [x1, y1, x2, y2]}`
(tracker.py line 132); a coordinate is `none` when the whole column had no
known value (`NaN` in the numpy output). -/
structure IBall where
  x1 : Option ℚ
  y1 : Option ℚ
  x2 : Option ℚ
  y2 : Option ℚ
deriving DecidableEq

/-- `self.interpolation_tracker` (tracker.py line 125): 1 for frames with
no ball datapoint, 0 otherwise. -/
def interpolation_tracker (bt : List BallDict) : List ℕ :=
  (bt.map ballPositionOf).map (fun o => if o.isNone then 1 else 0)

/-- `Tracker.interpolate_ball_positions` (tracker.py lines 116-134):
extract the per-frame bboxes, treat the four coordinates as independent
series, interpolate and back-fill each, and rebuild
`[{1: {"bbox": x}} for x in ...]`. -/
def interpolate_ball_positions (bt : List BallDict) : List (List (ℕ × IBall)) :=
  let ps := bt.map ballPositionOf
  let colX1 := ps.map (fun o => o.map RefereeFilter.Bbox.x1)
  let colY1 := ps.map (fun o => o.map RefereeFilter.Bbox.y1)
  let colX2 := ps.map (fun o => o.map RefereeFilter.Bbox.x2)
  let colY2 := ps.map (fun o => o.map RefereeFilter.Bbox.y2)
  (List.range bt.length).map (fun i =>
    [(1, ⟨interpAt colX1 i, interpAt colY1 i, interpAt colX2 i, interpAt colY2 i⟩)])

/-- One bbox-coordinate column of the ball sequence, as built by the
`pd.DataFrame(ball_positions, columns=["x1","y1","x2","y2"])` step
(tracker.py line 127): the selected coordinate per frame, `NaN` (`none`)
where the ball is missing. -/
def ballCol (sel : RefereeFilter.Bbox → ℚ) (bt : List BallDict) :
    List (Option ℚ) :=
  (bt.map ballPositionOf).map (fun o => o.map sel)

/-- Fixture class-name dict of the bundled model. -/
def names0 : List (ℕ × String) :=
  [(0, "ball"), (1, "goalkeeper"), (2, "player"), (3, "referee")]

/-- Fixture ByteTrack step: assign tracker ids 1, 2, ... by position. -/
def tu0 : List Det → List TrackedDet :=
  fun ds => ds.enum.map (fun p => ⟨p.2.bbox, p.2.conf, p.2.cls, p.1 + 1⟩)

/-- Fixture bbox. -/
def bb0 : RefereeFilter.Bbox := ⟨0, 0, 10, 10⟩

/-- Fixture frame result: one ball detection at confidence 0.29. -/
def fr29 : FrameResult := ⟨names0, [⟨bb0, 0.29, 0⟩]⟩

/-- Fixture frame result: one ball detection at confidence 0.30. -/
def fr30 : FrameResult := ⟨names0, [⟨bb0, 0.30, 0⟩]⟩

/-- Fixture frame result: one goalkeeper detection. -/
def frGk : FrameResult := ⟨names0, [⟨bb0, 0.9, 1⟩]⟩

/-- Fixture detector: no detections in any frame. -/
def predict0 : List ℕ → List FrameResult :=
  fun fs => fs.map (fun _ => ⟨names0, []⟩)

/-- Fixture ball sequence of the spec's interpolation example: known bbox
(0,0,10,10) at frame 0, frames 1-9 missing, known bbox (100,0,110,10) at
frame 10. -/
def exBall : List BallDict :=
  [[(1, ⟨some ⟨0, 0, 10, 10⟩, none⟩)]] ++ List.replicate 9 [] ++
    [[(1, ⟨some ⟨100, 0, 110, 10⟩, none⟩)]]

/-- Fixture ball sequence with an all-missing prefix of length 3 before the
first known value. -/
def exBallLead : List BallDict :=
  List.replicate 3 [] ++ [[(1, ⟨some ⟨0, 0, 10, 10⟩, some (5, 5)⟩)]]

end Tracker

/-! ## Generic helper lemmas on folds and association lists -/

/-- Membership in a fold whose step at most inserts elements decomposes into
membership in the initial set or in the contribution of one list element. -/
theorem mem_foldl_iff {α : Type _} (g : α → Finset ℕ) (step : Finset ℕ → α → Finset ℕ)
    (hstep : ∀ acc a x, x ∈ step acc a ↔ x ∈ acc ∨ x ∈ g a) :
    ∀ (l : List α) (init : Finset ℕ) (x : ℕ),
      x ∈ l.foldl step init ↔ x ∈ init ∨ ∃ a ∈ l, x ∈ g a := by
  intro l
  induction l with
  | nil => intro init x; simp
  | cons a t ih =>
    intro init x
    rw [List.foldl_cons, ih, hstep]
    constructor
    · rintro ((h | h) | ⟨b, hb, hx⟩)
      · exact Or.inl h
      · exact Or.inr ⟨a, List.mem_cons_self a t, h⟩
      · exact Or.inr ⟨b, List.mem_cons_of_mem a hb, hx⟩
    · rintro (h | ⟨b, hb, hx⟩)
      · exact Or.inl (Or.inl h)
      · rcases List.mem_cons.mp hb with rfl | hb
        · exact Or.inl (Or.inr hx)
        · exact Or.inr ⟨b, hb, hx⟩

/-- A predicate preserved by every step of a fold holds of the result. -/
theorem foldl_inv {α β : Type _} (P : β → Prop) (step : β → α → β) :
    ∀ (l : List α) (init : β), P init →
      (∀ b a, a ∈ l → P b → P (step b a)) → P (l.foldl step init) := by
  intro l
  induction l with
  | nil => intro init h _; exact h
  | cons a t ih =>
    intro init h hstep
    rw [List.foldl_cons]
    exact ih _ (hstep init a (List.mem_cons_self a t) h)
      (fun b x hx hb => hstep b x (List.mem_cons_of_mem a hx) hb)

namespace RefereeFilter

/-! ## IoU: symmetry, range, totality (claims C8 and C9) -/

theorem inter_comm (a b : Bbox) : inter a b = inter b a := by
  unfold inter
  rw [min_comm a.x2 b.x2, max_comm a.x1 b.x1, min_comm a.y2 b.y2,
    max_comm a.y1 b.y1]

theorem unionArea_comm (a b : Bbox) : unionArea a b = unionArea b a := by
  unfold unionArea; rw [inter_comm, add_comm]

/-- When the non-overlap guard does not fire, the intersection is positive
and bounded by each box's area. -/
theorem inter_bounds (a b : Bbox)
    (hx : max a.x1 b.x1 < min a.x2 b.x2) (hy : max a.y1 b.y1 < min a.y2 b.y2) :
    0 < inter a b ∧ inter a b ≤ area a ∧ inter a b ≤ area b := by
  have hxa1 : a.x1 ≤ max a.x1 b.x1 := le_max_left _ _
  have hxb1 : b.x1 ≤ max a.x1 b.x1 := le_max_right _ _
  have hxa2 : min a.x2 b.x2 ≤ a.x2 := min_le_left _ _
  have hxb2 : min a.x2 b.x2 ≤ b.x2 := min_le_right _ _
  have hya1 : a.y1 ≤ max a.y1 b.y1 := le_max_left _ _
  have hyb1 : b.y1 ≤ max a.y1 b.y1 := le_max_right _ _
  have hya2 : min a.y2 b.y2 ≤ a.y2 := min_le_left _ _
  have hyb2 : min a.y2 b.y2 ≤ b.y2 := min_le_right _ _
  refine ⟨mul_pos (by linarith) (by linarith), ?_, ?_⟩
  · unfold inter area
    apply mul_le_mul (by linarith) (by linarith) (by linarith) (by linarith)
  · unfold inter area
    apply mul_le_mul (by linarith) (by linarith) (by linarith) (by linarith)

/-- When the non-overlap guard does not fire, the union is positive (so the
division in `calculate_iou` never has a zero denominator). -/
theorem unionArea_pos (a b : Bbox)
    (hx : max a.x1 b.x1 < min a.x2 b.x2) (hy : max a.y1 b.y1 < min a.y2 b.y2) :
    0 < unionArea a b := by
  obtain ⟨h0, ha, hb⟩ := inter_bounds a b hx hy
  unfold unionArea; linarith

/-- Claim C8: for boxes satisfying the well-formedness invariant
(`x1 < x2` and `y1 < y2`), `calculate_iou` is symmetric, its value lies in
the closed interval `[0, 1]`, and `calculate_iou a a = 1` for any
non-degenerate box `a`. -/
theorem calculate_iou_symm_range_self (a b : Bbox) (ha : a.wf) (hb : b.wf) :
    calculate_iou a b = calculate_iou b a ∧
    0 ≤ calculate_iou a b ∧ calculate_iou a b ≤ 1 ∧
    calculate_iou a a = 1 := by
  obtain ⟨hax, hay⟩ := ha
  obtain ⟨hbx, hby⟩ := hb
  refine ⟨?_, ?_, ?_, ?_⟩
  · unfold calculate_iou
    rw [min_comm a.x2 b.x2, max_comm a.x1 b.x1, min_comm a.y2 b.y2,
      max_comm a.y1 b.y1, inter_comm, unionArea_comm]
  · unfold calculate_iou
    split_ifs with h1 h2
    · exact le_refl 0
    · exact le_refl 0
    · push_neg at h1
      obtain ⟨hx, hy⟩ := h1
      obtain ⟨h0, _, _⟩ := inter_bounds a b hx hy
      exact div_nonneg (le_of_lt h0) (le_of_lt (unionArea_pos a b hx hy))
  · unfold calculate_iou
    split_ifs with h1 h2
    · exact zero_le_one
    · exact zero_le_one
    · push_neg at h1
      obtain ⟨hx, hy⟩ := h1
      obtain ⟨h0, hia, hib⟩ := inter_bounds a b hx hy
      rw [div_le_one (unionArea_pos a b hx hy)]
      unfold unionArea; linarith
  · unfold calculate_iou
    have hxx : max a.x1 a.x1 < min a.x2 a.x2 := by simpa using hax
    have hyy : max a.y1 a.y1 < min a.y2 a.y2 := by simpa using hay
    have hip : 0 < inter a a := (inter_bounds a a hxx hyy).1
    have hie : inter a a = area a := by unfold inter area; simp
    have hu : unionArea a a = inter a a := by unfold unionArea; rw [hie]; ring
    rw [if_neg (by push_neg; exact ⟨hxx, hyy⟩), hu,
      if_neg (ne_of_gt hip), div_self (ne_of_gt hip)]

/-- Witness for C8 at concrete boxes. -/
theorem calculate_iou_symm_range_self_witness :
    calculate_iou ⟨0, 0, 2, 2⟩ ⟨1, 0, 3, 2⟩ = calculate_iou ⟨1, 0, 3, 2⟩ ⟨0, 0, 2, 2⟩ ∧
    0 ≤ calculate_iou ⟨0, 0, 2, 2⟩ ⟨1, 0, 3, 2⟩ ∧
    calculate_iou ⟨0, 0, 2, 2⟩ ⟨1, 0, 3, 2⟩ ≤ 1 ∧
    calculate_iou ⟨0, 0, 2, 2⟩ ⟨0, 0, 2, 2⟩ = 1 :=
  calculate_iou_symm_range_self ⟨0, 0, 2, 2⟩ ⟨1, 0, 3, 2⟩
    ⟨by norm_num, by norm_num⟩ ⟨by norm_num, by norm_num⟩

/-- Claim C9: `calculate_iou` is total; non-overlapping pairs return 0,
pairs where either box has zero area return 0, and whenever execution
reaches the division the denominator `union` is nonzero. -/
theorem calculate_iou_total_degenerate (a b : Bbox) :
    (min a.x2 b.x2 ≤ max a.x1 b.x1 ∨ min a.y2 b.y2 ≤ max a.y1 b.y1 →
      calculate_iou a b = 0) ∧
    (area a = 0 ∨ area b = 0 → calculate_iou a b = 0) ∧
    (max a.x1 b.x1 < min a.x2 b.x2 → max a.y1 b.y1 < min a.y2 b.y2 →
      unionArea a b ≠ 0) := by
  refine ⟨fun h => by unfold calculate_iou; rw [if_pos h], ?_, ?_⟩
  · intro h
    have hguard : min a.x2 b.x2 ≤ max a.x1 b.x1 ∨ min a.y2 b.y2 ≤ max a.y1 b.y1 := by
      rcases h with h | h
      · rcases mul_eq_zero.mp h with h0 | h0
        · left
          have hxe : a.x2 = a.x1 := by
            have := sub_eq_zero.mp h0; linarith
          calc min a.x2 b.x2 ≤ a.x2 := min_le_left _ _
            _ = a.x1 := hxe
            _ ≤ max a.x1 b.x1 := le_max_left _ _
        · right
          have hye : a.y2 = a.y1 := by
            have := sub_eq_zero.mp h0; linarith
          calc min a.y2 b.y2 ≤ a.y2 := min_le_left _ _
            _ = a.y1 := hye
            _ ≤ max a.y1 b.y1 := le_max_left _ _
      · rcases mul_eq_zero.mp h with h0 | h0
        · left
          have hxe : b.x2 = b.x1 := by
            have := sub_eq_zero.mp h0; linarith
          calc min a.x2 b.x2 ≤ b.x2 := min_le_right _ _
            _ = b.x1 := hxe
            _ ≤ max a.x1 b.x1 := le_max_right _ _
        · right
          have hye : b.y2 = b.y1 := by
            have := sub_eq_zero.mp h0; linarith
          calc min a.y2 b.y2 ≤ b.y2 := min_le_right _ _
            _ = b.y1 := hye
            _ ≤ max a.y1 b.y1 := le_max_right _ _
    unfold calculate_iou; rw [if_pos hguard]
  · intro hx hy
    exact ne_of_gt (unionArea_pos a b hx hy)

/-- Witness for C9: disjoint boxes give IoU 0, a zero-area box gives IoU 0,
and an overlapping pair has nonzero union. -/
theorem calculate_iou_total_degenerate_witness :
    calculate_iou ⟨0, 0, 1, 1⟩ ⟨5, 5, 6, 6⟩ = 0 ∧
    calculate_iou ⟨2, 2, 2, 9⟩ ⟨0, 0, 6, 6⟩ = 0 ∧
    unionArea ⟨0, 0, 2, 2⟩ ⟨1, 0, 3, 2⟩ ≠ 0 :=
  ⟨(calculate_iou_total_degenerate ⟨0, 0, 1, 1⟩ ⟨5, 5, 6, 6⟩).1 (by norm_num),
   (calculate_iou_total_degenerate ⟨2, 2, 2, 9⟩ ⟨0, 0, 6, 6⟩).2.1
     (by left; unfold area; norm_num),
   (calculate_iou_total_degenerate ⟨0, 0, 2, 2⟩ ⟨1, 0, 3, 2⟩).2.2
     (by norm_num) (by norm_num)⟩

end RefereeFilter

namespace RefereeFilter

/-! ## Stage A membership machinery and the global purge (claim C1) -/

theorem mem_refStep (thr : ℚ) (pid : ℕ) (pb : Bbox) (acc : Finset ℕ)
    (rp : ℕ × Entity) (x : ℕ) :
    x ∈ refStep thr pid pb acc rp ↔ x ∈ acc ∨ x ∈ refStep thr pid pb ∅ rp := by
  unfold refStep
  cases rp.2.bbox with
  | none => simp
  | some rb =>
    dsimp only
    split_ifs with h
    · simp [Finset.mem_insert, or_comm]
    · simp

theorem mem_playerStep (thr : ℚ) (frs : TrackDict) (acc : Finset ℕ)
    (pp : ℕ × Entity) (x : ℕ) :
    x ∈ playerStep thr frs acc pp ↔ x ∈ acc ∨ x ∈ playerStep thr frs ∅ pp := by
  unfold playerStep
  cases pp.2.bbox with
  | none => simp
  | some pb =>
    rw [mem_foldl_iff (refStep thr pp.1 pb ∅) (refStep thr pp.1 pb)
        (mem_refStep thr pp.1 pb) frs acc x,
      mem_foldl_iff (refStep thr pp.1 pb ∅) (refStep thr pp.1 pb)
        (mem_refStep thr pp.1 pb) frs ∅ x]
    simp

theorem mem_frameStep (thr : ℚ) (tracks : Tracks) (acc : Finset ℕ) (n : ℕ)
    (x : ℕ) :
    x ∈ frameStep thr tracks acc n ↔ x ∈ acc ∨ x ∈ frameStep thr tracks ∅ n := by
  unfold frameStep
  rw [mem_foldl_iff (playerStep thr (tracks.referees.getD n []) ∅)
      (playerStep thr (tracks.referees.getD n []))
      (mem_playerStep thr (tracks.referees.getD n []))
      (tracks.players.getD n []) acc x,
    mem_foldl_iff (playerStep thr (tracks.referees.getD n []) ∅)
      (playerStep thr (tracks.referees.getD n []))
      (mem_playerStep thr (tracks.referees.getD n []))
      (tracks.players.getD n []) ∅ x]
  simp

theorem mem_filter_by_referee_tracks (thr : ℚ) (tracks : Tracks) (x : ℕ) :
    x ∈ filter_by_referee_tracks thr tracks ↔
      ∃ n ∈ List.range tracks.players.length, x ∈ frameStep thr tracks ∅ n := by
  unfold filter_by_referee_tracks
  rw [mem_foldl_iff (frameStep thr tracks ∅) (frameStep thr tracks)
      (mem_frameStep thr tracks) (List.range tracks.players.length) ∅ x]
  simp

/-- A key that belongs to the removal set is not found in a filtered dict. -/
theorem lookup_filter_not_mem (s : Finset ℕ) (p : ℕ) (hp : p ∈ s) :
    ∀ l : TrackDict,
      (l.filter (fun pp => decide (pp.1 ∉ s))).lookup p = none := by
  intro l
  induction l with
  | nil => rfl
  | cons kv t ih =>
    obtain ⟨k, v⟩ := kv
    rw [List.filter_cons]
    by_cases hk : k ∈ s
    · have hc : (decide ((k, v).1 ∉ s)) = false := by simp [hk]
      rw [hc]
      simpa using ih
    · have hc : (decide ((k, v).1 ∉ s)) = true := by simp [hk]
      rw [hc, if_pos rfl]
      have hne : (p == k) = false := by
        simp only [beq_eq_false_iff_ne, ne_eq]
        intro h; exact hk (h ▸ hp)
      simpa [List.lookup, hne] using ih

/-- Claim C1: if in any single frame a player's bbox overlaps some
referee's bbox with IoU strictly above 0.30, then after `filter_referees`
that player's tracker id is absent from the players collection at every
frame index of the output. -/
theorem overlap_purges_globally (tol : ℚ) (frames : List Frame)
    (tracks : Tracks) (p r n : ℕ) (pe re : Entity) (pb rb : Bbox)
    (hn : n < tracks.players.length)
    (hp : (p, pe) ∈ tracks.players.getD n [])
    (hr : (r, re) ∈ tracks.referees.getD n [])
    (hpb : pe.bbox = some pb) (hrb : re.bbox = some rb)
    (hiou : (0.3 : ℚ) < calculate_iou pb rb) :
    ∀ m, ((filter_referees 0.3 tol frames tracks).players.getD m []).lookup p
      = none := by
  have hA : p ∈ filter_by_referee_tracks 0.3 tracks := by
    rw [mem_filter_by_referee_tracks]
    refine ⟨n, List.mem_range.mpr hn, ?_⟩
    rw [show frameStep (0.3 : ℚ) tracks ∅ n =
        (tracks.players.getD n []).foldl
          (playerStep 0.3 (tracks.referees.getD n [])) ∅ from rfl,
      mem_foldl_iff (playerStep 0.3 (tracks.referees.getD n []) ∅)
        (playerStep 0.3 (tracks.referees.getD n []))
        (mem_playerStep 0.3 (tracks.referees.getD n []))
        (tracks.players.getD n []) ∅ p]
    refine Or.inr ⟨(p, pe), hp, ?_⟩
    have hps : playerStep (0.3 : ℚ) (tracks.referees.getD n []) ∅ (p, pe) =
        (tracks.referees.getD n []).foldl (refStep 0.3 p pb) ∅ := by
      unfold playerStep; rw [hpb]
    rw [hps,
      mem_foldl_iff (refStep (0.3 : ℚ) p pb ∅) (refStep 0.3 p pb)
        (mem_refStep 0.3 p pb) (tracks.referees.getD n []) ∅ p]
    refine Or.inr ⟨(r, re), hr, ?_⟩
    have hrs : refStep (0.3 : ℚ) p pb ∅ (r, re) = insert p ∅ := by
      unfold refStep; rw [hrb]; dsimp only; rw [if_pos hiou]
    rw [hrs]
    exact Finset.mem_insert_self p ∅
  have hall : p ∈ filter_by_referee_tracks 0.3 tracks ∪
      filter_by_color_analysis tol frames tracks
        (some (filter_by_referee_tracks 0.3 tracks)) :=
    Finset.mem_union_left _ hA
  intro m
  unfold filter_referees
  rw [if_neg (Finset.ne_empty_of_mem hall)]
  rcases h2 : tracks.players[m]? with _ | w
  · simp [List.getD_eq_getElem?_getD, List.getElem?_map, h2]
  · simp only [List.getD_eq_getElem?_getD, List.getElem?_map, h2,
      Option.map_some, Option.getD_some]
    exact lookup_filter_not_mem _ p hall w

/-- Witness for C1: a one-frame store where player 7 fully overlaps
referee 9; id 7 is gone from the output players. -/
theorem overlap_purges_globally_witness :
    ((filter_referees 0.3 40 []
        ⟨[[(7, ⟨some ⟨0, 0, 2, 2⟩, none⟩)]],
          [[(9, ⟨some ⟨0, 0, 2, 2⟩, none⟩)]]⟩).players.getD 0 []).lookup 7
      = none :=
  overlap_purges_globally 40 []
    ⟨[[(7, ⟨some ⟨0, 0, 2, 2⟩, none⟩)]], [[(9, ⟨some ⟨0, 0, 2, 2⟩, none⟩)]]⟩
    7 9 0 ⟨some ⟨0, 0, 2, 2⟩, none⟩ ⟨some ⟨0, 0, 2, 2⟩, none⟩
    ⟨0, 0, 2, 2⟩ ⟨0, 0, 2, 2⟩ (by norm_num) (by simp) (by simp) rfl rfl
    (by norm_num [calculate_iou, unionArea, inter, area]) 0

end RefereeFilter

namespace RefereeFilter

theorem is_ref_black : is_referee_color 40 blackC = true := by
  norm_num [is_referee_color, referee_colors, dist2, blackC]

theorem is_ref_green : is_referee_color 40 greenC = false := by
  norm_num [is_referee_color, referee_colors, dist2, greenC]

theorem mean_shirt_mono (c : Color) :
    mean_shirt_color (monoFrame c) ⟨0, 0, 1, 2⟩ = some c := by
  norm_num [mean_shirt_color, monoFrame, fWidth, fHeight, pyInt, meanColor]

theorem colorStep_mono_hit (c : Color) (h : is_referee_color 40 c = true)
    (st : ColorState) :
    colorStep 40 none (monoFrame c) st (7, ⟨some ⟨0, 0, 1, 2⟩, none⟩) =
      ⟨insert 7 st.filtered_ids, pushColor 7 c st.player_colors⟩ := by
  simp [colorStep, mean_shirt_mono, h]

theorem colorStep_mono_miss (c : Color) (h : is_referee_color 40 c = false)
    (st : ColorState) :
    colorStep 40 none (monoFrame c) st (7, ⟨some ⟨0, 0, 1, 2⟩, none⟩) = st := by
  simp [colorStep, mean_shirt_mono, h]

theorem colorFramesPass_ex :
    colorFramesPass 40 none exFrames exPlayers =
      ⟨{7}, [(7, [blackC, blackC, blackC])]⟩ := by
  simp only [colorFramesPass, exFrames, exPlayers, List.replicate, List.zip,
    List.zipWith, List.foldl_cons, List.foldl_nil,
    colorStep_mono_hit blackC is_ref_black, colorStep_mono_miss greenC is_ref_green]
  simp [pushColor]

theorem sampleAt_mono (c : Color) :
    sampleAt 40 none (monoFrame c) (7, ⟨some ⟨0, 0, 1, 2⟩, none⟩) = [c] := by
  simp [sampleAt, mean_shirt_mono]

theorem specSampledColors_ex :
    specSampledColors 40 none exFrames exPlayers 7 =
      [blackC, blackC, blackC, greenC, greenC, greenC, greenC, greenC, greenC, greenC] := by
  simp only [specSampledColors, exFrames, exPlayers, List.replicate, List.zip,
    List.zipWith, List.flatMap_cons, List.flatMap_nil, List.filter]
  norm_num [sampleAt_mono]

end RefereeFilter

namespace RefereeFilter

theorem pushColor_fst (pid : ℕ) (c : Color) (pcs : List (ℕ × List Color)) :
    ∀ q ∈ pushColor pid c pcs, q.1 = pid ∨ ∃ q0 ∈ pcs, q.1 = q0.1 := by
  intro q hq
  unfold pushColor at hq
  split_ifs at hq with h
  · obtain ⟨q0, hq0, hmap⟩ := List.mem_map.mp hq
    refine Or.inr ⟨q0, hq0, ?_⟩
    by_cases he : q0.1 = pid
    · rw [if_pos he] at hmap; rw [← hmap]
    · rw [if_neg he] at hmap; rw [← hmap]
  · rcases List.mem_append.mp hq with h1 | h1
    · exact Or.inr ⟨q, h1, rfl⟩
    · left
      have : q = (pid, [c]) := by simpa using h1
      rw [this]

theorem colorStep_keys (tol : ℚ) (toCheck : Option (Finset ℕ)) (frame : Frame)
    (st : ColorState) (pp : ℕ × Entity)
    (h : ∀ pc ∈ st.player_colors, pc.1 ∈ st.filtered_ids) :
    ∀ pc ∈ (colorStep tol toCheck frame st pp).player_colors,
      pc.1 ∈ (colorStep tol toCheck frame st pp).filtered_ids := by
  unfold colorStep
  by_cases hg : (toCheck.elim false fun s => decide (pp.1 ∉ s)) = true
  · rw [if_pos hg]; exact h
  · rw [if_neg hg]
    cases hb : pp.2.bbox with
    | none => exact h
    | some bb =>
      dsimp only
      by_cases ht : (pp.2.team_colour.elim false fun tc => is_referee_color tol tc) = true
      · rw [if_pos ht]
        intro pc hpc
        exact Finset.mem_insert_of_mem (h pc hpc)
      · rw [if_neg ht]
        cases hm : mean_shirt_color frame bb with
        | none => exact h
        | some m =>
          dsimp only
          by_cases hr : is_referee_color tol m = true
          · rw [if_pos hr]
            intro pc hpc
            rcases pushColor_fst pp.1 m st.player_colors pc hpc with h1 | ⟨q0, hq0, h1⟩
            · rw [h1]; exact Finset.mem_insert_self _ _
            · rw [h1]; exact Finset.mem_insert_of_mem (h q0 hq0)
          · rw [if_neg hr]; exact h

theorem colorStep_filtered_subset (tol : ℚ) (s : Finset ℕ) (frame : Frame)
    (st : ColorState) (pp : ℕ × Entity) (h : st.filtered_ids ⊆ s) :
    (colorStep tol (some s) frame st pp).filtered_ids ⊆ s := by
  unfold colorStep
  by_cases hg : ((some s).elim false fun t => decide (pp.1 ∉ t)) = true
  · rw [if_pos hg]; exact h
  · rw [if_neg hg]
    have hmem : pp.1 ∈ s := by
      simp only [Option.elim_some, decide_eq_true_eq] at hg
      exact not_not.mp hg
    cases hb : pp.2.bbox with
    | none => exact h
    | some bb =>
      dsimp only
      by_cases ht : (pp.2.team_colour.elim false fun tc => is_referee_color tol tc) = true
      · rw [if_pos ht]
        exact Finset.insert_subset_iff.mpr ⟨hmem, h⟩
      · rw [if_neg ht]
        cases hm : mean_shirt_color frame bb with
        | none => exact h
        | some m =>
          dsimp only
          by_cases hr : is_referee_color tol m = true
          · rw [if_pos hr]
            exact Finset.insert_subset_iff.mpr ⟨hmem, h⟩
          · rw [if_neg hr]; exact h

theorem colorFramesPass_keys (tol : ℚ) (toCheck : Option (Finset ℕ))
    (frames : List Frame) (players : List TrackDict) :
    ∀ pc ∈ (colorFramesPass tol toCheck frames players).player_colors,
      pc.1 ∈ (colorFramesPass tol toCheck frames players).filtered_ids := by
  unfold colorFramesPass
  apply foldl_inv
    (fun st : ColorState => ∀ pc ∈ st.player_colors, pc.1 ∈ st.filtered_ids)
  · intro pc hpc; simp at hpc
  · intro st pf _ hst
    apply foldl_inv
      (fun st : ColorState => ∀ pc ∈ st.player_colors, pc.1 ∈ st.filtered_ids)
    · exact hst
    · intro st2 pp _ h2
      exact colorStep_keys tol toCheck pf.2 st2 pp h2

theorem colorFramesPass_filtered_subset (tol : ℚ) (s : Finset ℕ)
    (frames : List Frame) (players : List TrackDict) :
    (colorFramesPass tol (some s) frames players).filtered_ids ⊆ s := by
  unfold colorFramesPass
  apply foldl_inv (fun st : ColorState => st.filtered_ids ⊆ s)
  · exact Finset.empty_subset s
  · intro st pf _ hst
    apply foldl_inv (fun st : ColorState => st.filtered_ids ⊆ s)
    · exact hst
    · intro st2 pp _ h2
      exact colorStep_filtered_subset tol s pf.2 st2 pp h2

theorem freq_foldl_eq (tol : ℚ) :
    ∀ (pcs : List (ℕ × List Color)) (acc : Finset ℕ),
      (∀ pc ∈ pcs, pc.1 ∈ acc) → pcs.foldl (freqStep tol) acc = acc := by
  intro pcs
  induction pcs with
  | nil => intro acc _; rfl
  | cons pc t ih =>
    intro acc h
    rw [List.foldl_cons]
    have h1 : freqStep tol acc pc = acc := by
      unfold freqStep
      split_ifs with hc
      · exact Finset.insert_eq_self.mpr (h pc (List.mem_cons_self _ _))
      · rfl
    rw [h1]
    exact ih acc (fun q hq => h q (List.mem_cons_of_mem _ hq))

/-- The frequency loop never adds a new id: every key of `player_colors`
was already flagged by the direct path when its first color was appended. -/
theorem freq_loop_adds_nothing (tol : ℚ) (frames : List Frame) (tracks : Tracks)
    (toCheck : Option (Finset ℕ)) :
    filter_by_color_analysis tol frames tracks toCheck =
      (colorFramesPass tol toCheck frames tracks.players).filtered_ids := by
  unfold filter_by_color_analysis
  exact freq_foldl_eq tol _ _ (colorFramesPass_keys tol toCheck frames tracks.players)

end RefereeFilter

namespace RefereeFilter

/-- Claim C2 (failing-input evaluation): on a 10-frame input where id 7's
shirt color is sampled in all 10 frames and is referee-colored (black) in
exactly 3 of them, the source's frequency loop flags id 7 — its
`player_colors` list holds only the 3 referee-colored samples, so the
computed fraction is 3/3 — although the fraction of referee-colored
samples over all 10 sampled frames is 3/10, which does not exceed 0.60,
so the claimed rule says the id is not flagged by the frequency path. -/
theorem freq_rule_divergence :
    7 ∈ freq_path_ids 40 none exFrames exPlayers ∧
    (specSampledColors 40 none exFrames exPlayers 7).length = 10 ∧
    (specSampledColors 40 none exFrames exPlayers 7).countP
      (fun c => is_referee_color 40 c) = 3 ∧
    ¬ ((0.6 : ℚ) < (3 : ℚ) / 10) := by
  refine ⟨?_, ?_, ?_, by norm_num⟩
  · rw [freq_path_ids, colorFramesPass_ex]
    simp only [List.foldl_cons, List.foldl_nil, freqStep]
    rw [if_pos]
    · exact Finset.mem_insert_self 7 ∅
    · constructor
      · simp
      · simp [List.countP_cons, is_ref_black]
        norm_num
  · rw [specSampledColors_ex]; rfl
  · rw [specSampledColors_ex]
    simp [List.countP_cons, is_ref_black, is_ref_green]

theorem playerStep_nil_frs (thr : ℚ) (acc : Finset ℕ) (pp : ℕ × Entity) :
    playerStep thr [] acc pp = acc := by
  unfold playerStep
  cases pp.2.bbox <;> rfl

theorem foldl_playerStep_nil (thr : ℚ) :
    ∀ (l : TrackDict) (acc : Finset ℕ), l.foldl (playerStep thr []) acc = acc := by
  intro l
  induction l with
  | nil => intro acc; rfl
  | cons pp t ih =>
    intro acc
    rw [List.foldl_cons, playerStep_nil_frs, ih]

theorem stage_a_ex_empty : filter_by_referee_tracks 0.3 exTracks = ∅ := by
  ext x
  rw [mem_filter_by_referee_tracks]
  simp only [Finset.not_mem_empty, iff_false]
  rintro ⟨n, -, hx⟩
  have hrefs : exTracks.referees.getD n [] = [] := by
    show (List.replicate 10 ([] : TrackDict)).getD n [] = []
    rw [List.getD_eq_getElem?_getD, List.getElem?_replicate]
    split <;> rfl
  rw [show frameStep (0.3 : ℚ) exTracks ∅ n =
      (exTracks.players.getD n []).foldl
        (playerStep 0.3 (exTracks.referees.getD n [])) ∅ from rfl, hrefs,
    foldl_playerStep_nil] at hx
  simp at hx

end RefereeFilter

namespace RefereeFilter

theorem colorStep_skip_empty (tol : ℚ) (f : Frame) (st : ColorState)
    (pp : ℕ × Entity) : colorStep tol (some ∅) f st pp = st := by
  unfold colorStep
  rw [if_pos]
  simp

theorem foldl_colorStep_skip (tol : ℚ) (f : Frame) :
    ∀ (l : TrackDict) (st : ColorState),
      l.foldl (colorStep tol (some ∅) f) st = st := by
  intro l
  induction l with
  | nil => intro st; rfl
  | cons pp t ih =>
    intro st
    rw [List.foldl_cons, colorStep_skip_empty]
    exact ih st

theorem colorFramesPass_some_empty (tol : ℚ) (frames : List Frame)
    (players : List TrackDict) :
    colorFramesPass tol (some ∅) frames players = ⟨∅, []⟩ := by
  unfold colorFramesPass
  generalize players.zip frames = l
  induction l with
  | nil => rfl
  | cons pf t ih =>
    rw [List.foldl_cons, foldl_colorStep_skip]
    exact ih

/-- Claim C3 (amended): as invoked by `filter_referees`, Stage B is
restricted to Stage A's candidate set and can only return a subset of it,
so the final removal set (Stage A ids) ∪ (Stage B ids) equals the Stage A
set; Stage B can flag ids outside Stage A only when called standalone with
`player_ids_to_check=None`. -/
theorem stage_b_restricted_to_stage_a (iouThr tol : ℚ) (frames : List Frame)
    (tracks : Tracks) :
    filter_by_color_analysis tol frames tracks
        (some (filter_by_referee_tracks iouThr tracks)) ⊆
      filter_by_referee_tracks iouThr tracks ∧
    filter_by_referee_tracks iouThr tracks ∪
        filter_by_color_analysis tol frames tracks
          (some (filter_by_referee_tracks iouThr tracks)) =
      filter_by_referee_tracks iouThr tracks := by
  have hsub : filter_by_color_analysis tol frames tracks
      (some (filter_by_referee_tracks iouThr tracks)) ⊆
        filter_by_referee_tracks iouThr tracks := by
    rw [freq_loop_adds_nothing]
    exact colorFramesPass_filtered_subset tol _ frames tracks.players
  exact ⟨hsub, Finset.union_eq_left.mpr hsub⟩

/-- Witness for the amended C3 at the concrete fixture. -/
theorem stage_b_restricted_witness :
    filter_by_referee_tracks 0.3 exTracks ∪
        filter_by_color_analysis 40 exFrames exTracks
          (some (filter_by_referee_tracks 0.3 exTracks)) =
      filter_by_referee_tracks 0.3 exTracks :=
  (stage_b_restricted_to_stage_a 0.3 40 exFrames exTracks).2

/-- Counterexample to claim C3 as stated: a store whose Stage A set is
empty while standalone Stage B flags id 7; as invoked inside
`filter_referees`, Stage B returns the empty set and id 7 survives the
purge, so Stage B is not capable of contributing ids outside Stage A to
the final removal set. -/
theorem stage_b_cannot_add_new_ids_counterexample :
    filter_by_referee_tracks 0.3 exTracks = ∅ ∧
    filter_by_color_analysis 40 exFrames exTracks none = {7} ∧
    filter_by_color_analysis 40 exFrames exTracks
      (some (filter_by_referee_tracks 0.3 exTracks)) = ∅ ∧
    ((filter_referees 0.3 40 exFrames exTracks).players.getD 0 []).lookup 7 =
      some ⟨some ⟨0, 0, 1, 2⟩, none⟩ := by
  have hA := stage_a_ex_empty
  have hB1 : filter_by_color_analysis 40 exFrames exTracks none = {7} := by
    rw [freq_loop_adds_nothing]
    show (colorFramesPass 40 none exFrames exPlayers).filtered_ids = {7}
    rw [colorFramesPass_ex]
  have hB2 : filter_by_color_analysis 40 exFrames exTracks
      (some (filter_by_referee_tracks 0.3 exTracks)) = ∅ := by
    rw [hA, freq_loop_adds_nothing, colorFramesPass_some_empty]
  refine ⟨hA, hB1, hB2, ?_⟩
  have hall : filter_by_referee_tracks 0.3 exTracks ∪
      filter_by_color_analysis 40 exFrames exTracks
        (some (filter_by_referee_tracks 0.3 exTracks)) = ∅ := by
    rw [hB2, hA]
    simp
  simp only [filter_referees, hall]
  rfl

end RefereeFilter

/-- In an association list with pairwise-distinct keys, membership of a pair
determines the lookup result. -/
theorem lookup_eq_of_nodup_mem {β : Type _} :
    ∀ (l : List (ℕ × β)), (l.map Prod.fst).Nodup →
      ∀ (k : ℕ) (v : β), (k, v) ∈ l → l.lookup k = some v := by
  intro l
  induction l with
  | nil => intro _ k v hm; cases hm
  | cons kv t ih =>
    intro hnd k v hm
    obtain ⟨k0, v0⟩ := kv
    rw [List.map_cons, List.nodup_cons] at hnd
    rcases List.mem_cons.mp hm with h | h
    · obtain ⟨rfl, rfl⟩ := Prod.mk.injEq .. ▸ h
      simp [List.lookup]
    · have hk : k ≠ k0 := by
        rintro rfl
        exact hnd.1 (List.mem_map.mpr ⟨(k, v), h, rfl⟩)
      have hbeq : (k == k0) = false := beq_eq_false_iff_ne.mpr hk
      simp only [List.lookup, hbeq]
      exact ih hnd.2 k v h

namespace Tracker

/-- A successful reverse-dict lookup produces a pair of the names list. -/
theorem switched_mem (names : List (ℕ × String)) (s : String) (pid : ℕ)
    (h : switched names s = some pid) : (pid, s) ∈ names := by
  unfold switched at h
  rcases hf : names.reverse.find? (fun kv => kv.2 == s) with _ | kv
  · rw [hf] at h; cases h
  · rw [hf] at h
    have hkv : kv.1 = pid := by simpa using h
    have hmem : kv ∈ names.reverse := List.mem_of_find?_eq_some hf
    have hs : kv.2 = s := by
      have := List.find?_some hf
      simpa using this
    have : kv = (pid, s) := by
      obtain ⟨a, b⟩ := kv
      simp only at hkv hs
      rw [hkv, hs]
    rw [← this]
    exact List.mem_reverse.mp hmem

/-- Claim C7: after the goalkeeper remap, no detection handed to the online
tracker carries the goalkeeper class: every detection either had a
non-goalkeeper class name already or was rewritten to the player class id,
whose name is "player".  `processFrame` passes exactly this remapped list
to the tracker and to the players/referees/ball partition, so no tracker id
of the output is reachable through a goalkeeper class assignment. -/
theorem no_goalkeeper_reaches_tracker (fr : FrameResult) (pid : ℕ)
    (hpid : switched fr.names "player" = some pid)
    (hnd : (fr.names.map Prod.fst).Nodup) :
    ∀ d ∈ remap_goalkeepers fr.names pid fr.dets,
      clsName fr.names d.cls ≠ some "goalkeeper" := by
  intro d hd
  have hpn : clsName fr.names pid = some "player" :=
    lookup_eq_of_nodup_mem fr.names hnd pid "player" (switched_mem _ _ _ hpid)
  obtain ⟨d0, _, rfl⟩ := List.mem_map.mp hd
  by_cases hg : (clsName fr.names d0.cls == some "goalkeeper") = true
  · rw [if_pos hg]
    show clsName fr.names pid ≠ some "goalkeeper"
    rw [hpn]
    decide
  · rw [if_neg hg]
    intro hc
    exact hg (by rw [hc]; rfl)

/-- Witness for C7: the goalkeeper detection of `frGk` reaches the tracker
with the player class id 2, whose name is not "goalkeeper". -/
theorem no_goalkeeper_reaches_tracker_witness :
    clsName names0 (⟨bb0, 0.9, 2⟩ : Det).cls ≠ some "goalkeeper" :=
  no_goalkeeper_reaches_tracker frGk 2 rfl (by decide) ⟨bb0, 0.9, 2⟩
    (show (⟨bb0, 0.9, 2⟩ : Det) ∈ [(⟨bb0, 0.9, 2⟩ : Det)] from
      List.mem_cons_self _ _)

end Tracker

namespace Tracker

theorem lookup_append_right (k : ℕ) (v : TrackEntity) :
    ∀ d : TDict, (∀ kv ∈ d, kv.1 ≠ k) → (d ++ [(k, v)]).lookup k = some v := by
  intro d
  induction d with
  | nil => intro _; simp [List.lookup]
  | cons kv t ih =>
    intro h
    have hne : (k == kv.1) = false :=
      beq_eq_false_iff_ne.mpr (fun he => h kv (List.mem_cons_self _ _) he.symm)
    simp only [List.cons_append, List.lookup, hne]
    exact ih (fun q hq => h q (List.mem_cons_of_mem _ hq))

theorem lookup_map_overwrite (k : ℕ) (v : TrackEntity) :
    ∀ d : TDict, (∃ kv ∈ d, kv.1 = k) →
      (d.map (fun kv => if kv.1 = k then (k, v) else kv)).lookup k = some v := by
  intro d
  induction d with
  | nil => rintro ⟨kv, hkv, -⟩; cases hkv
  | cons kv t ih =>
    rintro ⟨q, hq, hqk⟩
    rcases List.mem_cons.mp hq with rfl | hq
    · simp only [List.map_cons, if_pos hqk]
      simp [List.lookup]
    · simp only [List.map_cons]
      by_cases hk : kv.1 = k
      · rw [if_pos hk]
        simp [List.lookup]
      · rw [if_neg hk]
        have hne : (k == kv.1) = false :=
          beq_eq_false_iff_ne.mpr (fun he => hk he.symm)
        simp only [List.lookup, hne]
        exact ih ⟨q, hq, hqk⟩

/-- Python dict assignment makes the key present with the assigned value. -/
theorem dinsert_lookup_self (k : ℕ) (v : TrackEntity) (d : TDict) :
    (dinsert k v d).lookup k = some v := by
  unfold dinsert
  by_cases h : (d.any fun kv => kv.1 == k) = true
  · rw [if_pos h]
    obtain ⟨kv, hkv, hb⟩ := List.any_eq_true.mp h
    exact lookup_map_overwrite k v d ⟨kv, hkv, by simpa using hb⟩
  · rw [if_neg h]
    apply lookup_append_right
    intro kv hkv he
    exact h (List.any_eq_true.mpr ⟨kv, hkv, by simpa using he⟩)

/-- Keys of a dict after assignment: an old key or the assigned one. -/
theorem dinsert_mem (k : ℕ) (v : TrackEntity) (d : TDict) :
    ∀ q ∈ dinsert k v d, q ∈ d ∨ q.1 = k := by
  intro q hq
  unfold dinsert at hq
  split_ifs at hq with h
  · obtain ⟨q0, hq0, hmap⟩ := List.mem_map.mp hq
    by_cases he : q0.1 = k
    · rw [if_pos he] at hmap; right; rw [← hmap]
    · rw [if_neg he] at hmap; left; rw [← hmap]; exact hq0
  · rcases List.mem_append.mp hq with h1 | h1
    · exact Or.inl h1
    · right
      have : q = (k, v) := by simpa using h1
      rw [this]

theorem ballFold_step_keys (bid : ℕ) :
    ∀ (dets : List Det) (acc : TDict), (∀ q ∈ acc, q.1 = 1) →
      ∀ q ∈ dets.foldl
        (fun d sd =>
          if sd.cls = bid ∧ (0.3 : ℚ) ≤ sd.conf then dinsert 1 ⟨sd.bbox⟩ d else d)
        acc, q.1 = 1 := by
  intro dets
  induction dets with
  | nil => intro acc h; exact h
  | cons d t ih =>
    intro acc h
    rw [List.foldl_cons]
    apply ih
    intro q hq
    split_ifs at hq with hc
    · rcases dinsert_mem 1 ⟨d.bbox⟩ acc q hq with h1 | h1
      · exact h q h1
      · exact h1
    · exact h q hq

theorem ballFold_step_isSome (bid : ℕ) :
    ∀ (dets : List Det) (acc : TDict),
      ((dets.foldl
        (fun d sd =>
          if sd.cls = bid ∧ (0.3 : ℚ) ≤ sd.conf then dinsert 1 ⟨sd.bbox⟩ d else d)
        acc).lookup 1).isSome = true ↔
      (acc.lookup 1).isSome = true ∨
        ∃ d ∈ dets, d.cls = bid ∧ (0.3 : ℚ) ≤ d.conf := by
  intro dets
  induction dets with
  | nil => intro acc; simp
  | cons d t ih =>
    intro acc
    rw [List.foldl_cons]
    by_cases hc : d.cls = bid ∧ (0.3 : ℚ) ≤ d.conf
    · rw [if_pos hc, ih]
      constructor
      · intro _
        exact Or.inr ⟨d, List.mem_cons_self _ _, hc⟩
      · intro _
        left
        rw [dinsert_lookup_self]
        rfl
    · rw [if_neg hc, ih]
      constructor
      · rintro (h | ⟨d0, hd0, hc0⟩)
        · exact Or.inl h
        · exact Or.inr ⟨d0, List.mem_cons_of_mem _ hd0, hc0⟩
      · rintro (h | ⟨d0, hd0, hc0⟩)
        · exact Or.inl h
        · rcases List.mem_cons.mp hd0 with rfl | hd0
          · exact absurd hc0 hc
          · exact Or.inr ⟨d0, hd0, hc0⟩

theorem ballFold_step_lookup_src (bid : ℕ) :
    ∀ (dets : List Det) (acc : TDict) (e : TrackEntity),
      (dets.foldl
        (fun d sd =>
          if sd.cls = bid ∧ (0.3 : ℚ) ≤ sd.conf then dinsert 1 ⟨sd.bbox⟩ d else d)
        acc).lookup 1 = some e →
      acc.lookup 1 = some e ∨
        ∃ d ∈ dets, d.cls = bid ∧ (0.3 : ℚ) ≤ d.conf ∧ e.bbox = d.bbox := by
  intro dets
  induction dets with
  | nil => intro acc e h; exact Or.inl h
  | cons d t ih =>
    intro acc e h
    rw [List.foldl_cons] at h
    by_cases hc : d.cls = bid ∧ (0.3 : ℚ) ≤ d.conf
    · rw [if_pos hc] at h
      rcases ih _ e h with h1 | ⟨d0, hd0, h2⟩
      · rw [dinsert_lookup_self] at h1
        injection h1 with h1
        exact Or.inr ⟨d, List.mem_cons_self _ _, hc.1, hc.2, by rw [← h1]⟩
      · exact Or.inr ⟨d0, List.mem_cons_of_mem _ hd0, h2⟩
    · rw [if_neg hc] at h
      rcases ih _ e h with h1 | ⟨d0, hd0, h2⟩
      · exact Or.inl h1
      · exact Or.inr ⟨d0, List.mem_cons_of_mem _ hd0, h2⟩

/-- A detection of the ball class is untouched by the goalkeeper remap and
conversely a remapped-list detection of the ball class comes from the input
list unchanged. -/
theorem mem_remap_ball (names : List (ℕ × String)) (pid bid : ℕ)
    (hpb : pid ≠ bid) (hbn : clsName names bid = some "ball") (dets : List Det)
    (d : Det) :
    (d ∈ remap_goalkeepers names pid dets ∧ d.cls = bid ↔
      d ∈ dets ∧ d.cls = bid) := by
  constructor
  · rintro ⟨hd, hcls⟩
    obtain ⟨d0, hd0, hf⟩ := List.mem_map.mp hd
    by_cases hg : (clsName names d0.cls == some "goalkeeper") = true
    · rw [if_pos hg] at hf
      rw [← hf] at hcls
      exact absurd hcls hpb
    · rw [if_neg hg] at hf
      rw [← hf]
      exact ⟨hd0, hf ▸ hcls⟩
  · rintro ⟨hd, hcls⟩
    refine ⟨?_, hcls⟩
    have hg : (clsName names d.cls == some "goalkeeper") = false := by
      rw [hcls, hbn]
      rfl
    have : (if clsName names d.cls == some "goalkeeper"
        then { d with cls := pid } else d) = d := by rw [hg]; rfl
    exact List.mem_map.mpr ⟨d, hd, this⟩

end Tracker

namespace Tracker

/-- Claim C4: in a frame processed by `get_object_tracks`, the ball dict
has the fixed key 1, it is inhabited exactly when some ball-class detection
of the frame has confidence at least 0.30, and its value comes from such a
detection; ball-class detections below 0.30 never appear even though the
detector retained them at the 0.15 cut. -/
theorem ball_cutoff (tu : List Det → List TrackedDet) (fr : FrameResult)
    (pd rd bd : TDict) (pid bid : ℕ)
    (hpl : switched fr.names "player" = some pid)
    (hbl : switched fr.names "ball" = some bid)
    (hnd : (fr.names.map Prod.fst).Nodup)
    (h : processFrame tu fr = some (pd, rd, bd)) :
    ((bd.lookup 1).isSome = true ↔
      ∃ d ∈ fr.dets, d.cls = bid ∧ (0.3 : ℚ) ≤ d.conf) ∧
    (∀ q ∈ bd, q.1 = 1) ∧
    (∀ e, bd.lookup 1 = some e →
      ∃ d ∈ fr.dets, d.cls = bid ∧ (0.3 : ℚ) ≤ d.conf ∧ e.bbox = d.bbox) := by
  have hbm := switched_mem _ _ _ hbl
  have hbn : clsName fr.names bid = some "ball" :=
    lookup_eq_of_nodup_mem fr.names hnd bid "ball" hbm
  have hpm := switched_mem _ _ _ hpl
  have hpn : clsName fr.names pid = some "player" :=
    lookup_eq_of_nodup_mem fr.names hnd pid "player" hpm
  have hpb : pid ≠ bid := by
    intro he
    rw [he] at hpn
    rw [hpn] at hbn
    exact absurd hbn (by decide)
  have hbd : bd = ballFold bid (remap_goalkeepers fr.names pid fr.dets) := by
    rcases hrl : switched fr.names "referee" with _ | rid
    · unfold processFrame at h
      rw [hpl, hrl, hbl] at h
      exact absurd h (by simp)
    · unfold processFrame at h
      rw [hpl, hrl, hbl] at h
      simp only [Option.some.injEq, Prod.mk.injEq] at h
      exact h.2.2.symm
  have hmem : ∀ d : Det,
      d ∈ remap_goalkeepers fr.names pid fr.dets ∧ d.cls = bid ↔
        d ∈ fr.dets ∧ d.cls = bid :=
    fun d => mem_remap_ball fr.names pid bid hpb hbn fr.dets d
  refine ⟨?_, ?_, ?_⟩
  · rw [hbd]
    unfold ballFold
    rw [ballFold_step_isSome bid (remap_goalkeepers fr.names pid fr.dets) []]
    simp only [List.lookup_nil, Option.isSome_none, Bool.false_eq_true, false_or]
    constructor
    · rintro ⟨d, hd, hcls, hconf⟩
      obtain ⟨hd2, hcls2⟩ := (hmem d).mp ⟨hd, hcls⟩
      exact ⟨d, hd2, hcls2, hconf⟩
    · rintro ⟨d, hd, hcls, hconf⟩
      obtain ⟨hd2, hcls2⟩ := (hmem d).mpr ⟨hd, hcls⟩
      exact ⟨d, hd2, hcls2, hconf⟩
  · rw [hbd]
    unfold ballFold
    exact ballFold_step_keys bid (remap_goalkeepers fr.names pid fr.dets) []
      (fun q hq => absurd hq (List.not_mem_nil q))
  · intro e he
    rw [hbd] at he
    unfold ballFold at he
    rcases ballFold_step_lookup_src bid (remap_goalkeepers fr.names pid fr.dets)
        [] e he with h1 | ⟨d, hd, hcls, hconf, hbb⟩
    · exact absurd h1 (by simp)
    · obtain ⟨hd2, hcls2⟩ := (hmem d).mp ⟨hd, hcls⟩
      exact ⟨d, hd2, hcls2, hconf, hbb⟩

end Tracker

namespace Tracker

/-- Witness for C4: a lone ball detection at confidence 0.29 leaves the
ball dict empty, one at 0.30 fills key 1. -/
theorem ball_cutoff_witness :
    ¬ ((([] : TDict).lookup 1).isSome = true) ∧
    (([(1, (⟨bb0⟩ : TrackEntity))] : TDict).lookup 1).isSome = true := by
  have hc29 : ¬ ((⟨bb0, 0.29, 0⟩ : Det).cls = 0 ∧ (0.3 : ℚ) ≤ (⟨bb0, 0.29, 0⟩ : Det).conf) := by
    norm_num
  have h29 : processFrame tu0 fr29 = some ([], [], []) := by
    have step1 : processFrame tu0 fr29 =
        some ([], [], ballFold 0 [⟨bb0, 0.29, 0⟩]) := rfl
    have step2 : ballFold 0 [⟨bb0, 0.29, 0⟩] = [] := by
      unfold ballFold
      rw [List.foldl_cons, if_neg hc29, List.foldl_nil]
    rw [step1, step2]
  have h30 : processFrame tu0 fr30 = some ([], [], [(1, ⟨bb0⟩)]) := by
    have step1 : processFrame tu0 fr30 =
        some ([], [], ballFold 0 [⟨bb0, 0.30, 0⟩]) := rfl
    have step2 : ballFold 0 [⟨bb0, 0.30, 0⟩] = [(1, ⟨bb0⟩)] := by
      unfold ballFold
      rw [List.foldl_cons, if_pos ⟨rfl, by norm_num⟩, List.foldl_nil]
      rfl
    rw [step1, step2]
  have w29 := (ball_cutoff tu0 fr29 [] [] [] 2 0 rfl rfl (by decide) h29).1
  have w30 := (ball_cutoff tu0 fr30 [] [] [(1, ⟨bb0⟩)] 2 0 rfl rfl (by decide) h30).1
  constructor
  · intro hs
    obtain ⟨d, hd, -, hconf⟩ := w29.mp hs
    have hde : d = ⟨bb0, 0.29, 0⟩ := by simpa [fr29] using hd
    rw [hde] at hconf
    norm_num at hconf
  · exact w30.mpr ⟨⟨bb0, 0.30, 0⟩, by simp [fr30], rfl, by norm_num⟩

theorem chunksFuel_join {α : Type _} (n : ℕ) :
    ∀ (fuel : ℕ) (l : List α), l.length ≤ fuel →
      (chunksFuel n fuel l).flatten = l := by
  intro fuel
  induction fuel with
  | zero =>
    intro l hl
    have : l = [] := List.eq_nil_of_length_eq_zero (Nat.le_zero.mp hl)
    rw [this]
    rfl
  | succ fuel ih =>
    intro l hl
    cases l with
    | nil => rfl
    | cons a t =>
      show (((a :: t).take (n + 1)) :: chunksFuel n fuel (t.drop n)).flatten = a :: t
      rw [List.flatten_cons, ih (t.drop n) (by simp only [List.length_drop]; simp only [List.length_cons] at hl; omega)]
      rw [List.take_succ_cons]
      rw [List.cons_append, List.take_append_drop]

theorem chunks_join {α : Type _} (n : ℕ) (l : List α) : (chunks n l).flatten = l :=
  chunksFuel_join n l.length l le_rfl

theorem flatMap_length_of_pres {α β : Type _} (predict : List α → List β)
    (hp : ∀ b, (predict b).length = b.length) :
    ∀ L : List (List α), (L.flatMap predict).length = L.flatten.length := by
  intro L
  induction L with
  | nil => rfl
  | cons c t ih =>
    rw [List.flatMap_cons, List.flatten_cons, List.length_append,
      List.length_append, hp, ih]

/-- The batch loop of `detect_frames` returns exactly one result per frame
whenever the model does so per batch. -/
theorem detect_frames_length {α β : Type _} (predict : List α → List β)
    (batch_size : ℕ) (frames : List α)
    (hp : ∀ b, (predict b).length = b.length) :
    (detect_frames predict batch_size frames).length = frames.length := by
  unfold detect_frames
  rw [flatMap_length_of_pres predict hp, chunks_join]

theorem build_tracks_lengths (tu : List Det → List TrackedDet) :
    ∀ (frs : List FrameResult) (t : List TDict × List TDict × List TDict),
      build_tracks tu frs = some t →
      t.1.length = frs.length ∧ t.2.1.length = frs.length ∧
        t.2.2.length = frs.length := by
  intro frs
  induction frs with
  | nil =>
    intro t h
    simp only [build_tracks, Option.some.injEq] at h
    rw [← h]
    exact ⟨rfl, rfl, rfl⟩
  | cons fr rest ih =>
    intro t h
    simp only [build_tracks] at h
    rcases hpf : processFrame tu fr with _ | trip
    · rw [hpf] at h; exact absurd h (by simp)
    · rcases hbt : build_tracks tu rest with _ | ts
      · rw [hpf, hbt] at h; exact absurd h (by simp)
      · rw [hpf, hbt] at h
        simp only [Option.some.injEq] at h
        obtain ⟨l1, l2, l3⟩ := ih ts hbt
        rw [← h]
        simp [l1, l2, l3]

theorem build_tracks_get (tu : List Det → List TrackedDet) :
    ∀ (frs : List FrameResult) (t : List TDict × List TDict × List TDict)
      (i : ℕ) (fr : FrameResult),
      build_tracks tu frs = some t → frs[i]? = some fr →
      ∃ trip, processFrame tu fr = some trip ∧
        t.1[i]? = some trip.1 ∧ t.2.1[i]? = some trip.2.1 ∧
        t.2.2[i]? = some trip.2.2 := by
  intro frs
  induction frs with
  | nil => intro t i fr _ hi; simp at hi
  | cons fr0 rest ih =>
    intro t i fr h hi
    simp only [build_tracks] at h
    rcases hpf : processFrame tu fr0 with _ | trip0
    · rw [hpf] at h; exact absurd h (by simp)
    · rcases hbt : build_tracks tu rest with _ | ts
      · rw [hpf, hbt] at h; exact absurd h (by simp)
      · rw [hpf, hbt] at h
        simp only [Option.some.injEq] at h
        cases i with
        | zero =>
          have hfr : fr0 = fr := by simpa using hi
          refine ⟨trip0, hfr ▸ hpf, ?_⟩
          rw [← h]
          exact ⟨by simp, by simp, by simp⟩
        | succ i =>
          have hi2 : rest[i]? = some fr := by simpa using hi
          obtain ⟨trip, hp2, h1, h2, h3⟩ := ih ts i fr hbt hi2
          refine ⟨trip, hp2, ?_, ?_, ?_⟩ <;> rw [← h] <;> simpa

/-- A frame result with no detections produces three empty dicts whenever
`processFrame` succeeds on it and the tracker maps no detections to no
tracks. -/
theorem processFrame_empty (tu : List Det → List TrackedDet) (fr : FrameResult)
    (trip : TDict × TDict × TDict) (htu : tu [] = [])
    (hdets : fr.dets = []) (h : processFrame tu fr = some trip) :
    trip = ([], [], []) := by
  unfold processFrame at h
  rcases h1 : switched fr.names "player" with _ | pid <;> rw [h1] at h
  · exact absurd h (by simp)
  rcases h2 : switched fr.names "referee" with _ | rid <;> rw [h2] at h
  · exact absurd h (by simp)
  rcases h3 : switched fr.names "ball" with _ | bid <;> rw [h3] at h
  · exact absurd h (by simp)
  rw [hdets] at h
  have hremap : remap_goalkeepers fr.names pid [] = [] := rfl
  simp only [hremap, htu, Option.some.injEq] at h
  rw [← h]
  rfl

end Tracker

namespace Tracker

/-- Claim C6: for an input frame sequence, the players, referees and ball
collections of the track store all have exactly one entry per frame, and a
frame whose detection set is empty yields empty dicts in all three
collections at that index (given that the online tracker maps an empty
detection list to an empty track list); Python requires a positive batch
size (`range` rejects step 0). -/
theorem track_lengths_and_empty_frames {α : Type _}
    (predict : List α → List FrameResult) (batch_size : ℕ)
    (tu : List Det → List TrackedDet) (frames : List α) (ts : TrackStore)
    (_hbs : 0 < batch_size)
    (hp : ∀ b, (predict b).length = b.length)
    (htu : tu [] = [])
    (h : get_object_tracks predict batch_size tu frames = some ts) :
    ts.players.length = frames.length ∧ ts.referees.length = frames.length ∧
    ts.ball.length = frames.length ∧
    ∀ (i : ℕ) (fr : FrameResult),
      (detect_frames predict batch_size frames)[i]? = some fr →
      fr.dets = [] →
      ts.players[i]? = some [] ∧ ts.referees[i]? = some [] ∧
        ts.ball[i]? = some [] := by
  unfold get_object_tracks at h
  rcases hbt : build_tracks tu (detect_frames predict batch_size frames)
    with _ | t
  · rw [hbt] at h; exact absurd h (by simp)
  · rw [hbt] at h
    simp only [Option.map_some', Option.some.injEq] at h
    obtain ⟨l1, l2, l3⟩ := build_tracks_lengths tu _ t hbt
    have hdl := detect_frames_length predict batch_size frames hp
    refine ⟨?_, ?_, ?_, ?_⟩
    · rw [← h]; show t.1.length = frames.length; rw [l1, hdl]
    · rw [← h]; show t.2.1.length = frames.length; rw [l2, hdl]
    · rw [← h]; show t.2.2.length = frames.length; rw [l3, hdl]
    · intro i fr hi hdets
      obtain ⟨trip, hpf, h1, h2, h3⟩ := build_tracks_get tu _ t i fr hbt hi
      have hte := processFrame_empty tu fr trip htu hdets hpf
      rw [hte] at h1 h2 h3
      rw [← h]
      exact ⟨h1, h2, h3⟩

/-- Witness for C6 on a three-frame detection-free input. -/
theorem track_lengths_and_empty_frames_witness :
    ∃ ts : TrackStore,
      get_object_tracks predict0 20 tu0 [10, 11, 12] = some ts ∧
      ts.players.length = 3 ∧ ts.referees.length = 3 ∧ ts.ball.length = 3 ∧
      ts.players[0]? = some [] ∧ ts.referees[0]? = some [] ∧
      ts.ball[0]? = some [] := by
  have hg : get_object_tracks predict0 20 tu0 [10, 11, 12] =
      some ⟨[[], [], []], [[], [], []], [[], [], []]⟩ := rfl
  obtain ⟨hl1, hl2, hl3, hempty⟩ :=
    track_lengths_and_empty_frames predict0 20 tu0 [10, 11, 12] _
      (by norm_num) (fun b => by simp [predict0]) rfl hg
  obtain ⟨h1, h2, h3⟩ := hempty 0 ⟨names0, []⟩ rfl rfl
  exact ⟨_, hg, hl1, hl2, hl3, h1, h2, h3⟩

end Tracker

/-- Mapping over the values of an association list commutes with lookup. -/
theorem lookup_map_snd {β γ : Type _} (f : β → γ) (k : ℕ) :
    ∀ l : List (ℕ × β),
      (l.map (fun p => (p.1, f p.2))).lookup k = (l.lookup k).map f := by
  intro l
  induction l with
  | nil => rfl
  | cons p t ih =>
    rcases hbeq : (k == p.1) with _ | _
    · simp only [List.map_cons, List.lookup, hbeq]
      exact ih
    · simp only [List.map_cons, List.lookup, hbeq]
      rfl

namespace Tracker

/-- Claim C5: the interpolated ball record at frame `i` is built from the
four bbox coordinates as independent series; on each series a missing
interior frame receives the linear interpolation between the nearest
preceding known value (at `j`) and the nearest following known value (at
`k`), and a frame of a leading all-missing run is back-filled with the
first known value. -/
theorem interpolate_linear_and_backfill (bt : List BallDict) (i : ℕ)
    (hi : i < bt.length) :
    ((interpolate_ball_positions bt).getD i []).lookup 1 =
      some ⟨interpAt (ballCol RefereeFilter.Bbox.x1 bt) i,
            interpAt (ballCol RefereeFilter.Bbox.y1 bt) i,
            interpAt (ballCol RefereeFilter.Bbox.x2 bt) i,
            interpAt (ballCol RefereeFilter.Bbox.y2 bt) i⟩ ∧
    (∀ (sel : RefereeFilter.Bbox → ℚ) (j k : ℕ) (a b : ℚ),
      entry (ballCol sel bt) i = none →
      prevIdx (ballCol sel bt) i = some j →
      entry (ballCol sel bt) j = some a →
      nextIdx (ballCol sel bt) i = some k →
      entry (ballCol sel bt) k = some b →
      interpAt (ballCol sel bt) i =
        some (a + (b - a) * (((i : ℚ) - (j : ℚ)) / ((k : ℚ) - (j : ℚ))))) ∧
    (∀ (sel : RefereeFilter.Bbox → ℚ) (k : ℕ) (b : ℚ),
      prevIdx (ballCol sel bt) i = none →
      nextIdx (ballCol sel bt) i = some k →
      entry (ballCol sel bt) k = some b →
      interpAt (ballCol sel bt) i = some b) := by
  refine ⟨?_, ?_, ?_⟩
  · simp only [interpolate_ball_positions]
    rw [List.getD_eq_getElem?_getD, List.getElem?_map, List.getElem?_range]
    · simp [List.lookup, ballCol]
    · exact hi
  · intro sel j k a b h1 h2 h3 h4 h5
    simp [interpAt, h1, h2, h3, h4, h5]
  · intro sel k b h1 h2 h3
    have h0 : entry (ballCol sel bt) i = none := by
      unfold prevIdx at h1
      rw [List.find?_eq_none] at h1
      have hmem : i ∈ (List.range (i + 1)).reverse := by
        rw [List.mem_reverse, List.mem_range]
        omega
      have hni := h1 i hmem
      cases he : entry (ballCol sel bt) i with
      | none => rfl
      | some v => exact absurd (by rw [he]; rfl) hni
    simp [interpAt, h0, h1, h2, h3]

/-- Witness for C5: the spec's example sequence; frame 5's x1 is 50 and a
leading-run frame equals the first known x1. -/
theorem interpolate_linear_and_backfill_witness :
    ((interpolate_ball_positions exBall).getD 5 []).lookup 1 =
      some ⟨interpAt (ballCol RefereeFilter.Bbox.x1 exBall) 5,
            interpAt (ballCol RefereeFilter.Bbox.y1 exBall) 5,
            interpAt (ballCol RefereeFilter.Bbox.x2 exBall) 5,
            interpAt (ballCol RefereeFilter.Bbox.y2 exBall) 5⟩ ∧
    interpAt (ballCol RefereeFilter.Bbox.x1 exBall) 5 = some 50 ∧
    interpAt (ballCol RefereeFilter.Bbox.x1 exBallLead) 1 = some 0 := by
  obtain ⟨hstruct, hlin, -⟩ :=
    interpolate_linear_and_backfill exBall 5 (by norm_num [exBall])
  obtain ⟨-, -, hback⟩ :=
    interpolate_linear_and_backfill exBallLead 1 (by norm_num [exBallLead])
  refine ⟨hstruct, ?_, hback RefereeFilter.Bbox.x1 3 0 rfl rfl rfl⟩
  have h := hlin RefereeFilter.Bbox.x1 0 10 0 100 rfl rfl rfl rfl rfl
  rw [h]
  norm_num

/-- Claim C10: every frame of the interpolated ball sequence is a singleton
dict with key 1 holding only a bbox, and the output is unchanged when the
`position` keys of the input (added by `add_position_to_tracks` before
interpolation in the reference pipeline) are erased — interpolation reads
only the bboxes and discards every other key. -/
theorem interpolate_discards_extra_keys (bt : List BallDict) :
    (∀ fd ∈ interpolate_ball_positions bt, ∃ r : IBall, fd = [(1, r)]) ∧
    interpolate_ball_positions
        (bt.map (List.map (fun pe => (pe.1, ⟨pe.2.bbox, none⟩)))) =
      interpolate_ball_positions bt := by
  constructor
  · intro fd hfd
    simp only [interpolate_ball_positions] at hfd
    obtain ⟨i, _, hf⟩ := List.mem_map.mp hfd
    exact ⟨_, hf.symm⟩
  · have hpos : ∀ d : BallDict,
        ballPositionOf (d.map (fun pe => (pe.1, (⟨pe.2.bbox, none⟩ : BallEntry)))) =
          ballPositionOf d := by
      intro d
      unfold ballPositionOf
      rw [lookup_map_snd (fun e : BallEntry => (⟨e.bbox, none⟩ : BallEntry)) 1 d]
      cases d.lookup 1 with
      | none => rfl
      | some e => rfl
    have hps : (bt.map (List.map (fun pe => (pe.1, (⟨pe.2.bbox, none⟩ : BallEntry))))).map
        ballPositionOf = bt.map ballPositionOf := by
      rw [List.map_map]
      exact List.map_congr_left (fun d _ => hpos d)
    simp only [interpolate_ball_positions]
    rw [hps, List.length_map]

/-- Witness for C10: a frame of the interpolated fixture is a singleton
keyed by 1, and erasing the positions of the fixture leaves the output
unchanged. -/
theorem interpolate_discards_extra_keys_witness :
    (∃ r : IBall,
      [(1, (⟨some 0, some 0, some 10, some 10⟩ : IBall))] = [(1, r)]) ∧
    interpolate_ball_positions
        (exBallLead.map (List.map (fun pe => (pe.1, ⟨pe.2.bbox, none⟩)))) =
      interpolate_ball_positions exBallLead :=
  ⟨(interpolate_discards_extra_keys exBallLead).1
      [(1, ⟨some 0, some 0, some 10, some 10⟩)] (List.mem_cons_self _ _),
   (interpolate_discards_extra_keys exBallLead).2⟩

end Tracker
